import Mathlib

/-!
# Verification of the address-handling core of `src/backend/libpq/ip.c`

This file shallowly embeds the data model and operations of `ip.c`:
the `SockAddr` union, the family-aware CIDR range matcher
(`rangeSockAddr`, `rangeSockAddrAF_INET`, `rangeSockAddrAF_INET6`,
`convSockAddr6to4`), the Unix-domain resolver synthesis
(`getaddrinfo_unix`), and the text codec (`SockAddr_ntop`,
`SockAddr_pton`).

Machine integers are modelled as `Nat`; the 32-bit IPv4 address field
`sin_addr.s_addr` is modelled as its network-byte-order numeric value
(big-endian interpretation of the four memory bytes), and the 16
`s6_addr` octets as a list of byte values.  Fallible paths return
explicit outcome values; heap allocation in the resolver is modelled by
Boolean success oracles and the resulting allocation trace.
-/

/-- `AF_INET` address-family tag (value as on Linux; only distinctness matters). -/
def AF_INET : Nat := 2

/-- `AF_INET6` address-family tag. -/
def AF_INET6 : Nat := 10

/-- `AF_UNIX` address-family tag. -/
def AF_UNIX : Nat := 1

/-- The `SockAddr` union of `ip.c`: a raw family tag together with the
IPv4 payload (`in.sin_addr.s_addr`, one 32-bit value in network byte
order, modelled as its big-endian numeric interpretation), the IPv6
payload (`in6.sin6_addr.s6_addr`, 16 octets), and the port
(`sin_port`/`sin6_port` occupy the same offset in the union, hence one
field).  The two IP payloads are modelled as separate fields: every
operation in `ip.c` reads a payload only under the matching family
tag, so union aliasing between them is never observable. -/
structure SockAddr where
  sa_family : Nat
  sin_addr : Nat
  sin6_addr : List Nat
  port : Nat
  deriving DecidableEq, Repr

/-- `s6_addr[i]`: octet `i` of an IPv6 payload (0 when out of range;
all addresses of interest carry exactly 16 octets). -/
def byteAt (l : List Nat) (i : Nat) : Nat := l.getD i 0

/-- The network-byte-order 32-bit value of the dotted quad `a.b.c.d`. -/
def mkIPv4 (a b c d : Nat) : Nat := ((a * 256 + b) * 256 + c) * 256 + d

/-- `IN6_IS_ADDR_V4MAPPED`: octets 0..9 are zero and octets 10, 11 are `0xff`. -/
def in6IsV4Mapped (b : List Nat) : Bool :=
  byteAt b 0 == 0 && byteAt b 1 == 0 && byteAt b 2 == 0 && byteAt b 3 == 0 &&
  byteAt b 4 == 0 && byteAt b 5 == 0 && byteAt b 6 == 0 && byteAt b 7 == 0 &&
  byteAt b 8 == 0 && byteAt b 9 == 0 && byteAt b 10 == 0xff && byteAt b 11 == 0xff

/-- `rangeSockAddrAF_INET` from `ip.c`: all three families must be
`AF_INET`, then `(addr ^ netaddr) & netmask == 0` on the 32-bit value. -/
def rangeSockAddrAF_INET (addr netaddr netmask : SockAddr) : Bool :=
  if addr.sa_family ≠ AF_INET ∨ netaddr.sa_family ≠ AF_INET ∨
      netmask.sa_family ≠ AF_INET then
    false
  else if ((addr.sin_addr ^^^ netaddr.sin_addr) &&& netmask.sin_addr) = 0 then
    true
  else
    false

/-- The all-zero `SockAddr`, standing in for the uninitialised stack
variable `addr4` in `rangeSockAddrAF_INET6` (only fields that
`convSockAddr6to4` overwrites are ever read from it). -/
def sockAddrZero : SockAddr :=
  { sa_family := 0, sin_addr := 0, sin6_addr := [], port := 0 }

/-- `convSockAddr6to4` from `ip.c`: writes into `dst` the family
`AF_INET`, the source's port, and
`s6_addr[15] + (s6_addr[14] << 8) + (s6_addr[13] << 16) + (s6_addr[12] << 24)`
as the 32-bit IPv4 value; other fields of `dst` are left as they were.
(The trailing `SockAddr_ntop` call in the source writes only a local
scratch string and has no observable effect.) -/
def convSockAddr6to4 (src dst : SockAddr) : SockAddr :=
  { dst with
    sa_family := AF_INET
    port := src.port
    sin_addr :=
      byteAt src.sin6_addr 15 + (byteAt src.sin6_addr 14 <<< 8) +
      (byteAt src.sin6_addr 13 <<< 16) + (byteAt src.sin6_addr 12 <<< 24) }

/-- The byte loop of `rangeSockAddrAF_INET6`: for `i = 0 .. 15`,
`(addr[i] ^ netaddr[i]) & netmask[i]` must be zero (the C loop
short-circuits to `false` at the first nonzero octet, as `List.all`
does). -/
def rangeBytesOk (a n m : List Nat) : Bool :=
  (List.range 16).all fun i => ((byteAt a i ^^^ byteAt n i) &&& byteAt m i) == 0

/-- `rangeSockAddrAF_INET6` from `ip.c`: if the address is IPv4-mapped,
first try the match converted to IPv4; on success answer `true`.
Otherwise require both rule families to be `AF_INET6` and compare all
16 octets under the mask. -/
def rangeSockAddrAF_INET6 (addr netaddr netmask : SockAddr) : Bool :=
  if in6IsV4Mapped addr.sin6_addr &&
      rangeSockAddrAF_INET (convSockAddr6to4 addr sockAddrZero) netaddr netmask then
    true
  else if netaddr.sa_family ≠ AF_INET6 ∨ netmask.sa_family ≠ AF_INET6 then
    false
  else if rangeBytesOk addr.sin6_addr netaddr.sin6_addr netmask.sin6_addr then
    true
  else
    false

/-- `rangeSockAddr` from `ip.c`: dispatch on the address's family;
anything other than `AF_INET`/`AF_INET6` yields `false`. -/
def rangeSockAddr (addr netaddr netmask : SockAddr) : Bool :=
  if addr.sa_family = AF_INET then
    rangeSockAddrAF_INET addr netaddr netmask
  else if addr.sa_family = AF_INET6 then
    rangeSockAddrAF_INET6 addr netaddr netmask
  else
    false

/-- `SOCK_STREAM` socket-type value. -/
def SOCK_STREAM : Nat := 1

/-- `AI_PASSIVE` hint flag. -/
def AI_PASSIVE : Nat := 1

/-- `EAI_ADDRFAMILY` resolver error code. -/
def EAI_ADDRFAMILY : Int := -9

/-- `EAI_MEMORY` resolver error code. -/
def EAI_MEMORY : Int := -10

/-- `EAI_SERVICE` resolver error code (what `getaddrinfo_unix` returns
for an over-long path). -/
def EAI_SERVICE : Int := -8

/-- `sizeof(unp->sun_path)`: the platform path-name capacity for
domain-socket addresses (108 on Linux). -/
def sun_path_size : Nat := 108

/-- The `addrinfo` hint fields that `getaddrinfo_unix` reads
(`memcpy(&hints, hintsp, sizeof(hints))` copies all of them). -/
structure AddrInfoHints where
  ai_flags : Nat
  ai_family : Nat
  ai_socktype : Nat
  ai_protocol : Nat
  deriving DecidableEq, Repr

/-- The single synthesized `addrinfo` node for the Unix-domain path. -/
structure AddrInfoUnix where
  ai_family : Nat
  ai_socktype : Nat
  ai_protocol : Nat
  sun_path : List Char
  deriving DecidableEq, Repr

/-- What a call to `getaddrinfo_unix` can end as: a synthesized node, a
resolver error code, or a store through a null pointer (the fault the C
code commits when the second `calloc` fails). -/
inductive GaiOutcome where
  | ok (ai : AddrInfoUnix)
  | err (code : Int)
  | nullDeref
  deriving DecidableEq, Repr

/-- The observable trace of one `getaddrinfo_unix` call: its outcome,
which of the two heap blocks (the `addrinfo` node, the `sockaddr_un`
buffer) are still allocated when it returns, whether `*result` was
assigned, whether the path bytes were copied, and whether the passive
branch unlinked the filesystem entry. -/
structure GaiTrace where
  outcome : GaiOutcome
  nodeAllocated : Bool
  bufAllocated : Bool
  resultSet : Bool
  pathCopied : Bool
  unlinked : Bool
  deriving DecidableEq, Repr

/-- `getaddrinfo_unix` from `ip.c`.  Heap allocation is modelled by the
two oracles `nodeAllocOk`/`bufAllocOk` (success of the first and second
`calloc`).  The source checks the wrong pointer after the second
`calloc` (`if (aip == NULL)` instead of `unp`), so a failed second
allocation falls through to `unp->sun_family = AF_UNIX`, a store through
the null pointer; the path-length check runs only after both
allocations, and an over-long path returns `EAI_SERVICE` without
freeing either block. -/
def getaddrinfo_unix (path : List Char) (hintsp : Option AddrInfoHints)
    (nodeAllocOk bufAllocOk : Bool) : GaiTrace :=
  let hints : AddrInfoHints :=
    match hintsp with
    | none => { ai_flags := 0, ai_family := AF_UNIX,
                ai_socktype := SOCK_STREAM, ai_protocol := 0 }
    | some h => h
  let hints :=
    if hints.ai_socktype = 0 then { hints with ai_socktype := SOCK_STREAM }
    else hints
  if hints.ai_family ≠ AF_UNIX then
    { outcome := .err EAI_ADDRFAMILY, nodeAllocated := false,
      bufAllocated := false, resultSet := false, pathCopied := false,
      unlinked := false }
  else if nodeAllocOk = false then
    { outcome := .err EAI_MEMORY, nodeAllocated := false,
      bufAllocated := false, resultSet := false, pathCopied := false,
      unlinked := false }
  else if bufAllocOk = false then
    { outcome := .nullDeref, nodeAllocated := true, bufAllocated := false,
      resultSet := true, pathCopied := false, unlinked := false }
  else if sun_path_size ≤ path.length then
    { outcome := .err EAI_SERVICE, nodeAllocated := true,
      bufAllocated := true, resultSet := true, pathCopied := false,
      unlinked := false }
  else
    let node : AddrInfoUnix :=
      { ai_family := AF_UNIX, ai_socktype := hints.ai_socktype,
        ai_protocol := hints.ai_protocol, sun_path := path }
    { outcome := .ok node,
      nodeAllocated := true, bufAllocated := true, resultSet := true,
      pathCopied := true, unlinked := (hints.ai_flags &&& AI_PASSIVE) != 0 }

/-- A request reaches the Unix-domain synthesis proper when the hints
(after defaulting) name the `AF_UNIX` family. -/
def hintsFamilyIsUnix (hintsp : Option AddrInfoHints) : Prop :=
  ∀ h, hintsp = some h → h.ai_family = AF_UNIX

instance (hintsp : Option AddrInfoHints) : Decidable (hintsFamilyIsUnix hintsp) := by
  unfold hintsFamilyIsUnix
  cases hintsp with
  | none => exact isTrue (by intro h hh; cases hh)
  | some h =>
    by_cases hf : h.ai_family = AF_UNIX
    · exact isTrue (by intro h2 hh; cases hh; exact hf)
    · exact isFalse (by intro hall; exact hf (hall h rfl))

/-- An IPv4 `SockAddr` with the given 32-bit value (port 0, no IPv6 payload). -/
def v4Sock (v : Nat) : SockAddr :=
  { sa_family := AF_INET, sin_addr := v, sin6_addr := [], port := 0 }

/-- An IPv6 `SockAddr` with the given 16 octets (port 0). -/
def v6Sock (bs : List Nat) : SockAddr :=
  { sa_family := AF_INET6, sin_addr := 0, sin6_addr := bs, port := 0 }

/-- C1: `rangeSockAddrAF_INET` returns true exactly when all three
family tags are IPv4 and `(addr XOR network) AND mask` is zero over the
32-bit network-order value; in particular 10.1.2.3 matches the rule
10.0.0.0/255.0.0.0 and 11.1.2.3 does not. -/
theorem claim1_range_v4 :
    (∀ a n m : SockAddr,
      rangeSockAddrAF_INET a n m = true ↔
        (a.sa_family = AF_INET ∧ n.sa_family = AF_INET ∧ m.sa_family = AF_INET ∧
          ((a.sin_addr ^^^ n.sin_addr) &&& m.sin_addr) = 0)) ∧
    rangeSockAddrAF_INET (v4Sock (mkIPv4 10 1 2 3))
      (v4Sock (mkIPv4 10 0 0 0)) (v4Sock (mkIPv4 255 0 0 0)) = true ∧
    rangeSockAddrAF_INET (v4Sock (mkIPv4 11 1 2 3))
      (v4Sock (mkIPv4 10 0 0 0)) (v4Sock (mkIPv4 255 0 0 0)) = false := by
  refine ⟨fun a n m => ?_, by decide, by decide⟩
  unfold rangeSockAddrAF_INET
  by_cases h1 : a.sa_family = AF_INET <;>
    by_cases h2 : n.sa_family = AF_INET <;>
      by_cases h3 : m.sa_family = AF_INET <;>
        by_cases h4 : ((a.sin_addr ^^^ n.sin_addr) &&& m.sin_addr) = 0 <;>
          simp [h1, h2, h3, h4]

/-- The 16-octet loop succeeds exactly when every octet position passes
the masked comparison. -/
theorem rangeBytesOk_iff (a n m : List Nat) :
    rangeBytesOk a n m = true ↔
      ∀ i < 16, ((byteAt a i ^^^ byteAt n i) &&& byteAt m i) = 0 := by
  simp [rangeBytesOk, List.all_eq_true, List.mem_range]

/-- C2: for an IPv4-mapped IPv6 address, the matcher first converts the
address to its embedded IPv4 form and tests it as an IPv4 rule; if that
sub-match succeeds the overall result is true regardless of the direct
IPv6 comparison.  In particular `::ffff:10.1.2.3` matches the IPv4 rule
10.0.0.0/255.0.0.0. -/
theorem claim2_mapped_fallback :
    (∀ a n m : SockAddr, in6IsV4Mapped a.sin6_addr = true →
      rangeSockAddrAF_INET (convSockAddr6to4 a sockAddrZero) n m = true →
      rangeSockAddrAF_INET6 a n m = true) ∧
    rangeSockAddr (v6Sock [0, 0, 0, 0, 0, 0, 0, 0, 0, 0, 0xff, 0xff, 10, 1, 2, 3])
      (v4Sock (mkIPv4 10 0 0 0)) (v4Sock (mkIPv4 255 0 0 0)) = true := by
  refine ⟨fun a n m h1 h2 => ?_, by decide⟩
  unfold rangeSockAddrAF_INET6
  simp [h1, h2]

/-- Witness for C2 at the concrete mapped address `::ffff:10.1.2.3`. -/
theorem claim2_mapped_fallback_witness :
    rangeSockAddrAF_INET6 (v6Sock [0, 0, 0, 0, 0, 0, 0, 0, 0, 0, 0xff, 0xff, 10, 1, 2, 3])
      (v4Sock (mkIPv4 10 0 0 0)) (v4Sock (mkIPv4 255 0 0 0)) = true :=
  claim2_mapped_fallback.1 _ _ _ (by decide) (by decide)

/-- C3: when the mapped-fallback sub-match does not apply, the IPv6
matcher returns true exactly when both rule families are IPv6 and every
one of the 16 octets passes `(addr[i] XOR network[i]) AND mask[i] == 0`;
and an address whose family is neither IPv4 nor IPv6 makes the top-level
dispatch return false. -/
theorem claim3_range_v6 :
    (∀ a n m : SockAddr,
      (in6IsV4Mapped a.sin6_addr = false ∨
        rangeSockAddrAF_INET (convSockAddr6to4 a sockAddrZero) n m = false) →
      (rangeSockAddrAF_INET6 a n m = true ↔
        (n.sa_family = AF_INET6 ∧ m.sa_family = AF_INET6 ∧
          ∀ i < 16,
            ((byteAt a.sin6_addr i ^^^ byteAt n.sin6_addr i) &&&
              byteAt m.sin6_addr i) = 0))) ∧
    (∀ a n m : SockAddr, a.sa_family ≠ AF_INET → a.sa_family ≠ AF_INET6 →
      rangeSockAddr a n m = false) := by
  constructor
  · intro a n m h
    have hcond : (in6IsV4Mapped a.sin6_addr &&
        rangeSockAddrAF_INET (convSockAddr6to4 a sockAddrZero) n m) = false := by
      rcases h with h | h <;> simp [h]
    unfold rangeSockAddrAF_INET6
    rw [hcond]
    by_cases h2 : n.sa_family = AF_INET6 <;>
      by_cases h3 : m.sa_family = AF_INET6 <;>
        by_cases h4 : rangeBytesOk a.sin6_addr n.sin6_addr m.sin6_addr <;>
          simp [h2, h3, h4, ← rangeBytesOk_iff]
  · intro a n m h1 h2
    unfold rangeSockAddr
    simp [h1, h2]

/-- Witness for C3: a non-mapped all-ones IPv6 address inside an all-ones
/128 rule matches, and a Unix-domain address never matches any rule. -/
theorem claim3_range_v6_witness :
    rangeSockAddrAF_INET6 (v6Sock (List.replicate 16 1))
      (v6Sock (List.replicate 16 1)) (v6Sock (List.replicate 16 255)) = true ∧
    rangeSockAddr { sa_family := AF_UNIX, sin_addr := 0, sin6_addr := [], port := 0 }
      (v4Sock 0) (v4Sock 0) = false :=
  ⟨(claim3_range_v6.1 _ _ _ (Or.inl (by decide))).2 ⟨by decide, by decide, by decide⟩,
   claim3_range_v6.2 _ _ _ (by decide) (by decide)⟩

/-- C4: for an IPv4-mapped source, `convSockAddr6to4` yields an IPv4
variant whose 32-bit value is the big-endian (network-order) reading of
octets 12..15 and whose port is the source's port, and the converted
address behaves under the IPv4 range match exactly like the IPv4 address
those four octets denote. -/
theorem claim4_conv6to4 :
    ∀ src dst : SockAddr, in6IsV4Mapped src.sin6_addr = true →
      (convSockAddr6to4 src dst).sin_addr =
        mkIPv4 (byteAt src.sin6_addr 12) (byteAt src.sin6_addr 13)
          (byteAt src.sin6_addr 14) (byteAt src.sin6_addr 15) ∧
      (convSockAddr6to4 src dst).port = src.port ∧
      (convSockAddr6to4 src dst).sa_family = AF_INET ∧
      ∀ n m : SockAddr,
        rangeSockAddrAF_INET (convSockAddr6to4 src dst) n m =
          rangeSockAddrAF_INET
            (v4Sock (mkIPv4 (byteAt src.sin6_addr 12) (byteAt src.sin6_addr 13)
              (byteAt src.sin6_addr 14) (byteAt src.sin6_addr 15))) n m := by
  intro src dst hmap
  have haddr : byteAt src.sin6_addr 15 + (byteAt src.sin6_addr 14 <<< 8) +
      (byteAt src.sin6_addr 13 <<< 16) + (byteAt src.sin6_addr 12 <<< 24) =
      mkIPv4 (byteAt src.sin6_addr 12) (byteAt src.sin6_addr 13)
        (byteAt src.sin6_addr 14) (byteAt src.sin6_addr 15) := by
    simp only [mkIPv4, Nat.shiftLeft_eq]
    ring
  refine ⟨by simp [convSockAddr6to4, haddr], rfl, rfl, ?_⟩
  intro n m
  unfold rangeSockAddrAF_INET
  simp [convSockAddr6to4, v4Sock, haddr]

/-- Witness for C4 at `::ffff:10.1.2.3` (with a port, which is preserved). -/
theorem claim4_conv6to4_witness :
    (convSockAddr6to4
      { sa_family := AF_INET6, sin_addr := 0,
        sin6_addr := [0, 0, 0, 0, 0, 0, 0, 0, 0, 0, 0xff, 0xff, 10, 1, 2, 3],
        port := 5432 } sockAddrZero).sin_addr = mkIPv4 10 1 2 3 ∧
    (convSockAddr6to4
      { sa_family := AF_INET6, sin_addr := 0,
        sin6_addr := [0, 0, 0, 0, 0, 0, 0, 0, 0, 0, 0xff, 0xff, 10, 1, 2, 3],
        port := 5432 } sockAddrZero).port = 5432 :=
  ⟨(claim4_conv6to4 _ _ (by decide)).1, (claim4_conv6to4 _ _ (by decide)).2.1⟩

/-- C5 counterexample: a 108-character path fails with the path-too-long
error, yet the node and the address buffer are both still allocated on
that error return — the claim's "allocates nothing" is false. -/
theorem claim5_pathtoolong_counterexample :
    (getaddrinfo_unix (List.replicate 108 'a') none true true).outcome =
        GaiOutcome.err EAI_SERVICE ∧
      (getaddrinfo_unix (List.replicate 108 'a') none true true).nodeAllocated = true ∧
      (getaddrinfo_unix (List.replicate 108 'a') none true true).bufAllocated = true := by
  decide

/-- C5 (amended): a Unix-domain request whose path reaches the platform
capacity fails with the path-too-long error before any byte of the path
is copied; however the node and the address buffer, both allocated
before the length check, remain allocated (the node having been stored
through `*result`). -/
theorem claim5_pathtoolong_amended :
    ∀ (path : List Char) (hintsp : Option AddrInfoHints),
      hintsFamilyIsUnix hintsp → sun_path_size ≤ path.length →
      getaddrinfo_unix path hintsp true true =
        { outcome := .err EAI_SERVICE, nodeAllocated := true,
          bufAllocated := true, resultSet := true, pathCopied := false,
          unlinked := false } := by
  intro path hintsp hfam hlen
  unfold getaddrinfo_unix
  cases hintsp with
  | none => simp [hlen, SOCK_STREAM, AF_UNIX]
  | some h =>
    have hf := hfam h rfl
    by_cases hs : h.ai_socktype = 0 <;> simp [hs, hf, hlen, SOCK_STREAM, AF_UNIX]

/-- Witness for the amended C5 at a concrete 120-character path. -/
theorem claim5_pathtoolong_amended_witness :
    getaddrinfo_unix (List.replicate 120 'b') none true true =
      { outcome := .err EAI_SERVICE, nodeAllocated := true,
        bufAllocated := true, resultSet := true, pathCopied := false,
        unlinked := false } :=
  claim5_pathtoolong_amended (List.replicate 120 'b') none (by decide) (by decide)

/-- C6 (code bug): when the second allocation (the `sockaddr_un` buffer)
fails, `getaddrinfo_unix` does not return the out-of-memory error — the
source re-checks the node pointer `aip` instead of the fresh `unp`, so
it falls through and stores through the null buffer pointer.  Failure of
the first allocation is handled as the claim says. -/
theorem claim6_oom_second_alloc :
    (getaddrinfo_unix "/tmp/.s.PGSQL.5432".toList none true false).outcome =
        GaiOutcome.nullDeref ∧
      (getaddrinfo_unix "/tmp/.s.PGSQL.5432".toList none false false).outcome =
        GaiOutcome.err EAI_MEMORY := by
  decide

/-- The character for digit value `d < 16` (lowercase hex, as the
platform presentation routines emit). -/
def digitChar (d : Nat) : Char :=
  Char.ofNat (if d < 10 then 48 + d else 87 + d)

/-- Little-endian base-`b` digits, driven by a fuel argument so the
recursion is structural (`n` itself is always enough fuel). -/
def toDigitsLEFuel (b : Nat) : Nat → Nat → List Nat
  | 0, _ => []
  | fuel + 1, n =>
    if 2 ≤ b ∧ 0 < n then n % b :: toDigitsLEFuel b fuel (n / b) else []

/-- Little-endian base-`b` digits of `n` (empty for 0 or a degenerate base). -/
def toDigitsLE (b n : Nat) : List Nat := toDigitsLEFuel b n n

/-- Value of a little-endian digit list. -/
def ofDigitsLE (b : Nat) : List Nat → Nat
  | [] => 0
  | d :: ds => d + b * ofDigitsLE b ds

/-- Value of a big-endian digit list. -/
def ofDigitsBE (b : Nat) (ds : List Nat) : Nat :=
  ds.foldl (fun acc d => acc * b + d) 0

/-- Decimal or hex rendering of `n` in base `b`: most significant digit
first, no leading zeros, `"0"` for zero. -/
def renderNat (b n : Nat) : List Char :=
  if n = 0 then [digitChar 0] else (toDigitsLE b n).reverse.map digitChar

/-- Value of a decimal digit character. -/
def decDigitVal (c : Char) : Option Nat :=
  if 48 ≤ c.toNat ∧ c.toNat ≤ 57 then some (c.toNat - 48) else none

/-- Value of a hexadecimal digit character (either case). -/
def hexDigitVal (c : Char) : Option Nat :=
  if 48 ≤ c.toNat ∧ c.toNat ≤ 57 then some (c.toNat - 48)
  else if 97 ≤ c.toNat ∧ c.toNat ≤ 102 then some (c.toNat - 87)
  else if 65 ≤ c.toNat ∧ c.toNat ≤ 70 then some (c.toNat - 55)
  else none

/-- Read every character as a digit, failing on the first non-digit. -/
def parseDigits (f : Char → Option Nat) : List Char → Option (List Nat)
  | [] => some []
  | c :: cs =>
    match f c, parseDigits f cs with
    | some d, some ds => some (d :: ds)
    | _, _ => none

/-- One dotted-quad field: one to three decimal digits, value at most 255. -/
def parseDecOctet (g : List Char) : Option Nat :=
  if g.length = 0 ∨ 3 < g.length then none
  else
    match parseDigits decDigitVal g with
    | some ds => if ofDigitsBE 10 ds ≤ 255 then some (ofDigitsBE 10 ds) else none
    | none => none

/-- One colon-hex group: one to four hexadecimal digits. -/
def parseHexGroup (g : List Char) : Option Nat :=
  if g.length = 0 ∨ 4 < g.length then none
  else
    match parseDigits hexDigitVal g with
    | some ds => some (ofDigitsBE 16 ds)
    | none => none

/-- Split a character list at every occurrence of `c` (a split of the
empty list is one empty field, as for separated fields in an address). -/
def splitOnChar (c : Char) : List Char → List (List Char)
  | [] => [[]]
  | x :: xs =>
    if x = c then [] :: splitOnChar c xs
    else
      match splitOnChar c xs with
      | [] => [[x]]
      | g :: gs => (x :: g) :: gs

/-- Join fields with the separator `c` between them. -/
def intercalateChar (c : Char) : List (List Char) → List Char
  | [] => []
  | [p] => p
  | p :: ps => p ++ c :: intercalateChar c ps

/-- Modelled from the spec: the platform `inet_pton` for `AF_INET`,
which `ip.c` delegates to and which is not part of this repository —
parses exactly a dotted-decimal quad into the 32-bit network-order
value. -/
def inet_pton4 (s : List Char) : Option Nat :=
  match splitOnChar '.' s with
  | [g0, g1, g2, g3] =>
    match parseDecOctet g0, parseDecOctet g1, parseDecOctet g2, parseDecOctet g3 with
    | some a, some b, some c, some d => some (mkIPv4 a b c d)
    | _, _, _, _ => none
  | _ => none

/-- The two network-order bytes of a 16-bit group value. -/
def wordBytes (w : Nat) : List Nat := [w / 256, w % 256]

/-- Modelled from the spec: the platform `inet_pton` for `AF_INET6`,
which `ip.c` delegates to and which is not part of this repository —
parses the standard colon-hex form (eight hex groups) into the 16
network-order octets. -/
def inet_pton6 (s : List Char) : Option (List Nat) :=
  match splitOnChar ':' s with
  | [g0, g1, g2, g3, g4, g5, g6, g7] =>
    match parseHexGroup g0, parseHexGroup g1, parseHexGroup g2, parseHexGroup g3,
        parseHexGroup g4, parseHexGroup g5, parseHexGroup g6, parseHexGroup g7 with
    | some w0, some w1, some w2, some w3, some w4, some w5, some w6, some w7 =>
      some (wordBytes w0 ++ wordBytes w1 ++ wordBytes w2 ++ wordBytes w3 ++
        wordBytes w4 ++ wordBytes w5 ++ wordBytes w6 ++ wordBytes w7)
    | _, _, _, _, _, _, _, _ => none
  | _ => none

/-- `SockAddr_pton` from `ip.c`: scan the text for a colon to infer the
family, store the inferred family tag into the union *before* parsing,
then delegate to the family's parser; the parser's result (1 on
success, 0 on invalid input) is passed through, and the payload is
written only on success. -/
def SockAddr_pton (sa : SockAddr) (src : List Char) : Int × SockAddr :=
  let family := if src.any (fun ch => ch = ':') then AF_INET6 else AF_INET
  let sa1 := { sa with sa_family := family }
  if family = AF_INET then
    match inet_pton4 src with
    | some v => (1, { sa1 with sin_addr := v })
    | none => (0, sa1)
  else if family = AF_INET6 then
    match inet_pton6 src with
    | some bs => (1, { sa1 with sin6_addr := bs })
    | none => (0, sa1)
  else
    (-1, sa1)

/-- The 16-bit group `i` of an IPv6 payload, big-endian per RFC text form. -/
def w16 (bs : List Nat) (i : Nat) : Nat :=
  byteAt bs (2 * i) * 256 + byteAt bs (2 * i + 1)

/-- Modelled from the spec: the text the platform `inet_ntop` produces
for an `AF_INET` value — the dotted-decimal quad of the four
network-order bytes. -/
def ntop4chars (v : Nat) : List Char :=
  intercalateChar '.'
    [renderNat 10 (v / 16777216 % 256), renderNat 10 (v / 65536 % 256),
      renderNat 10 (v / 256 % 256), renderNat 10 (v % 256)]

/-- Modelled from the spec: the text the platform `inet_ntop` produces
for an `AF_INET6` value — the standard colon-hex form, eight 16-bit
groups in lowercase hex without leading zeros. -/
def ntop6chars (bs : List Nat) : List Char :=
  intercalateChar ':'
    [renderNat 16 (w16 bs 0), renderNat 16 (w16 bs 1), renderNat 16 (w16 bs 2),
      renderNat 16 (w16 bs 3), renderNat 16 (w16 bs 4), renderNat 16 (w16 bs 5),
      renderNat 16 (w16 bs 6), renderNat 16 (w16 bs 7)]

/-- The NUL terminator. -/
def nulChar : Char := Char.ofNat 0

/-- Store the bytes of `s` into the buffer starting at index `start`,
returning the new buffer contents and the list of indices written. -/
def writeChars (l : List Char) (start : Nat) (s : List Char) : List Char × List Nat :=
  (l.take start ++ s ++ l.drop (start + s.length), List.range' start s.length)

/-- The platform `inet_ntop` buffer behaviour: when the text and its
terminator fit in the declared capacity the bytes are stored at the
start of the buffer; otherwise the call fails and stores nothing
(`ip.c` ignores the failure). -/
def inet_ntop_write (s : List Char) (buf : List Char) (cnt : Nat) :
    List Char × List Nat :=
  if s.length + 1 ≤ cnt then writeChars buf 0 (s ++ [nulChar]) else (buf, [])

/-- The C string held in a buffer: everything before the first NUL (the
end of the allocation acts as a terminator to keep the model total). -/
def readCStr (l : List Char) : List Char := l.takeWhile (fun c => c ≠ nulChar)

/-- `strcpy(dst, dst + src)`: copy the C string starting at index `src`
(and its terminator) to the start of the buffer. -/
def strcpyFrom (buf : List Char) (src : Nat) : List Char × List Nat :=
  writeChars buf 0 (readCStr (buf.drop src) ++ [nulChar])

/-- `SockAddr_ntop` from `ip.c` over the buffer model: format the IPv4
or IPv6 payload into the caller's buffer of capacity `cnt`; for a
v4-mapped IPv6 address with `v4conv` set, shift the text left over its
7-character mapped prefix with `strcpy(dst, dst + 7)`; for any other
family store a single NUL at index 0 (the empty string), with no
capacity check.  Returns the final buffer and the indices written. -/
def SockAddr_ntop (sa : SockAddr) (buf : List Char) (cnt : Nat) (v4conv : Bool) :
    List Char × List Nat :=
  if sa.sa_family = AF_INET then
    inet_ntop_write (ntop4chars sa.sin_addr) buf cnt
  else if sa.sa_family = AF_INET6 then
    let r := inet_ntop_write (ntop6chars sa.sin6_addr) buf cnt
    if v4conv && in6IsV4Mapped sa.sin6_addr then
      let r2 := strcpyFrom r.1 7
      (r2.1, r.2 ++ r2.2)
    else r
  else
    writeChars buf 0 [nulChar]

/-- The capacity needed for `SockAddr_ntop` to behave: the formatted
text plus terminator for the IP families, one byte otherwise. -/
def ntopNeeded (sa : SockAddr) : Nat :=
  if sa.sa_family = AF_INET then (ntop4chars sa.sin_addr).length + 1
  else if sa.sa_family = AF_INET6 then (ntop6chars sa.sin6_addr).length + 1
  else 1

/-- The claimed buffer contract: every index the call writes lies below
the declared capacity. -/
def ntopWritesWithin (sa : SockAddr) (buf : List Char) (cnt : Nat)
    (v4conv : Bool) : Prop :=
  ∀ i ∈ (SockAddr_ntop sa buf cnt v4conv).2, i < cnt

/-- The buffer holds a NUL somewhere below the capacity. -/
def bufNullTerminated (l : List Char) (cnt : Nat) : Prop :=
  ∃ i, i < cnt ∧ l.getD i nulChar = nulChar

/-- The Address Variant invariant: whichever IP family the tag names,
that payload holds a value of the right width. -/
def validPayload (sa : SockAddr) : Prop :=
  (sa.sa_family = AF_INET → sa.sin_addr < 4294967296) ∧
  (sa.sa_family = AF_INET6 → sa.sin6_addr.length = 16 ∧ ∀ x ∈ sa.sin6_addr, x < 256)

/-- `toDigitsLEFuel` ignores the fuel as long as it is at least `n`. -/
theorem toDigitsLEFuel_irrel (b : Nat) :
    ∀ n fuel1 fuel2, n ≤ fuel1 → n ≤ fuel2 →
      toDigitsLEFuel b fuel1 n = toDigitsLEFuel b fuel2 n := by
  intro n
  induction n using Nat.strong_induction_on with
  | _ n ih =>
    intro fuel1 fuel2 h1 h2
    cases fuel1 with
    | zero =>
      cases fuel2 with
      | zero => rfl
      | succ f2 =>
        have hn : n = 0 := by omega
        subst hn
        simp [toDigitsLEFuel]
    | succ f1 =>
      cases fuel2 with
      | zero =>
        have hn : n = 0 := by omega
        subst hn
        simp [toDigitsLEFuel]
      | succ f2 =>
        simp only [toDigitsLEFuel]
        by_cases h : 2 ≤ b ∧ 0 < n
        · rw [if_pos h, if_pos h]
          have hdiv : n / b < n := Nat.div_lt_self h.2 (by omega)
          rw [ih (n / b) hdiv f1 f2 (by omega) (by omega)]
        · rw [if_neg h, if_neg h]

/-- Zero has no digits. -/
theorem toDigitsLE_zero (b : Nat) : toDigitsLE b 0 = [] := rfl

/-- Unfolding `toDigitsLE` for a positive argument and a real base. -/
theorem toDigitsLE_pos (b n : Nat) (hb : 2 ≤ b) (hn : 0 < n) :
    toDigitsLE b n = n % b :: toDigitsLE b (n / b) := by
  obtain ⟨k, rfl⟩ : ∃ k, n = k + 1 := ⟨n - 1, by omega⟩
  show toDigitsLEFuel b (k + 1) (k + 1) = _
  simp only [toDigitsLEFuel]
  rw [if_pos ⟨hb, hn⟩]
  congr 1
  exact toDigitsLEFuel_irrel b ((k + 1) / b) k ((k + 1) / b)
    (by have := Nat.div_lt_self hn (show 1 < b by omega); omega) (le_refl _)

/-- Reassembling the little-endian digits gives the number back. -/
theorem ofDigitsLE_toDigitsLE (b : Nat) (hb : 2 ≤ b) :
    ∀ n, ofDigitsLE b (toDigitsLE b n) = n := by
  intro n
  induction n using Nat.strong_induction_on with
  | _ n ih =>
    by_cases hn : 0 < n
    · rw [toDigitsLE_pos b n hb hn]
      simp only [ofDigitsLE]
      rw [ih (n / b) (Nat.div_lt_self hn (by omega))]
      exact Nat.mod_add_div n b
    · have hn0 : n = 0 := by omega
      subst hn0
      rfl

/-- Every digit produced is below the base. -/
theorem toDigitsLE_lt (b : Nat) :
    ∀ n, ∀ d ∈ toDigitsLE b n, d < b := by
  intro n
  induction n using Nat.strong_induction_on with
  | _ n ih =>
    intro d hd
    by_cases h : 2 ≤ b ∧ 0 < n
    · rw [toDigitsLE_pos b n h.1 h.2] at hd
      rcases List.mem_cons.mp hd with rfl | hd
      · exact Nat.mod_lt n (by omega)
      · exact ih (n / b) (Nat.div_lt_self h.2 (by omega)) d hd
    · exfalso
      rcases Nat.eq_zero_or_pos n with hn | hn
      · subst hn
        rw [toDigitsLE_zero] at hd
        exact List.not_mem_nil d hd
      · have hb : ¬ 2 ≤ b := fun hb => h ⟨hb, hn⟩
        obtain ⟨k, rfl⟩ : ∃ k, n = k + 1 := ⟨n - 1, by omega⟩
        have : toDigitsLE b (k + 1) = [] := by
          show toDigitsLEFuel b (k + 1) (k + 1) = []
          simp only [toDigitsLEFuel]
          rw [if_neg (by omega)]
        rw [this] at hd
        exact List.not_mem_nil d hd

/-- A number below `b ^ k` has at most `k` digits. -/
theorem toDigitsLE_length_le (b : Nat) (hb : 2 ≤ b) :
    ∀ k n, n < b ^ k → (toDigitsLE b n).length ≤ k := by
  intro k
  induction k with
  | zero =>
    intro n hn
    have : n = 0 := by simpa using hn
    subst this
    simp [toDigitsLE_zero]
  | succ k ih =>
    intro n hn
    by_cases h0 : 0 < n
    · rw [toDigitsLE_pos b n hb h0]
      simp only [List.length_cons]
      have : n / b < b ^ k := by
        rw [Nat.div_lt_iff_lt_mul (by omega : 0 < b)]
        calc n < b ^ (k + 1) := hn
          _ = b ^ k * b := by rw [Nat.pow_succ]
      exact Nat.succ_le_succ (ih (n / b) this)
    · have : n = 0 := by omega
      subst this
      simp [toDigitsLE_zero]

/-- Folding big-endian over the reverse of a little-endian digit list. -/
theorem foldBE_reverse (b : Nat) :
    ∀ ds : List Nat, ∀ acc : Nat,
      (ds.reverse).foldl (fun a d => a * b + d) acc =
        acc * b ^ ds.length + ofDigitsLE b ds := by
  intro ds
  induction ds with
  | nil => intro acc; simp [ofDigitsLE]
  | cons d ds ih =>
    intro acc
    simp only [List.reverse_cons, List.foldl_append, List.foldl_cons, List.foldl_nil,
      List.length_cons, ofDigitsLE, ih]
    rw [Nat.pow_succ]
    ring

/-- Rendering then revaluing the digits is the identity. -/
theorem ofDigitsBE_toDigits (b n : Nat) (hb : 2 ≤ b) :
    ofDigitsBE b (toDigitsLE b n).reverse = n := by
  unfold ofDigitsBE
  rw [foldBE_reverse]
  simp [ofDigitsLE_toDigitsLE b hb]

/-- A decimal digit character decodes to the digit that produced it. -/
theorem decDigitVal_digitChar : ∀ d, d < 10 → decDigitVal (digitChar d) = some d := by
  decide

/-- A hex digit character decodes to the digit that produced it. -/
theorem hexDigitVal_digitChar : ∀ d, d < 16 → hexDigitVal (digitChar d) = some d := by
  decide

/-- Digit characters are never a separator or the NUL terminator. -/
theorem digitChar_ne_special :
    ∀ d, d < 16 → digitChar d ≠ ':' ∧ digitChar d ≠ '.' ∧ digitChar d ≠ nulChar := by
  decide

/-- Reading back a digit string written with a faithful decoder. -/
theorem parseDigits_map (f : Char → Option Nat) (dc : Nat → Char) :
    ∀ ds : List Nat, (∀ d ∈ ds, f (dc d) = some d) →
      parseDigits f (ds.map dc) = some ds := by
  intro ds
  induction ds with
  | nil => intro _; rfl
  | cons d ds ih =>
    intro h
    simp only [List.map_cons, parseDigits]
    rw [h d (by simp), ih (fun x hx => h x (by simp [hx]))]

/-- `parseDigits` yields digits satisfying the decoder's guarantee, one
per input character. -/
theorem parseDigits_sound (f : Char → Option Nat) (P : Nat → Prop)
    (hf : ∀ c d, f c = some d → P d) :
    ∀ (g : List Char) (ds : List Nat), parseDigits f g = some ds →
      (∀ d ∈ ds, P d) ∧ ds.length = g.length := by
  intro g
  induction g with
  | nil =>
    intro ds h
    simp only [parseDigits] at h
    cases h
    simp
  | cons c cs ih =>
    intro ds h
    simp only [parseDigits] at h
    cases hc : f c with
    | none => rw [hc] at h; cases h
    | some d =>
      cases hcs : parseDigits f cs with
      | none => rw [hc, hcs] at h; cases h
      | some ds0 =>
        rw [hc, hcs] at h
        cases h
        obtain ⟨h1, h2⟩ := ih ds0 hcs
        refine ⟨?_, by simp [h2]⟩
        intro d' hd'
        rcases List.mem_cons.mp hd' with rfl | hd'
        · exact hf c d' hc
        · exact h1 d' hd'

/-- A rendered number is never the empty string. -/
theorem renderNat_ne_nil (b n : Nat) (hb : 2 ≤ b) : renderNat b n ≠ [] := by
  unfold renderNat
  by_cases hn : n = 0
  · simp [hn]
  · rw [if_neg hn, toDigitsLE_pos b n hb (by omega)]
    simp

/-- Rendered digits fit in `k` characters when the value is below `b ^ k`. -/
theorem renderNat_length_le (b k n : Nat) (hb : 2 ≤ b) (hk : 1 ≤ k)
    (hn : n < b ^ k) : (renderNat b n).length ≤ k := by
  unfold renderNat
  by_cases h0 : n = 0
  · rw [if_pos h0]
    simpa using hk
  · rw [if_neg h0]
    simp only [List.length_map, List.length_reverse]
    exact toDigitsLE_length_le b hb k n hn

/-- Every character of a rendered number is a digit character. -/
theorem mem_renderNat (b n : Nat) (hb16 : b ≤ 16) :
    ∀ c ∈ renderNat b n, ∃ d, d < 16 ∧ c = digitChar d := by
  intro c hc
  unfold renderNat at hc
  by_cases h0 : n = 0
  · rw [if_pos h0] at hc
    simp only [List.mem_singleton] at hc
    exact ⟨0, by omega, hc⟩
  · rw [if_neg h0] at hc
    rcases List.mem_map.mp hc with ⟨d, hd, rfl⟩
    exact ⟨d, Nat.lt_of_lt_of_le (toDigitsLE_lt b n d (List.mem_reverse.mp hd)) hb16,
      rfl⟩

/-- Separators and NUL never occur in a rendered number. -/
theorem renderNat_no_special (b n : Nat) (hb16 : b ≤ 16) :
    ':' ∉ renderNat b n ∧ '.' ∉ renderNat b n ∧ nulChar ∉ renderNat b n := by
  refine ⟨fun h => ?_, fun h => ?_, fun h => ?_⟩ <;>
    · obtain ⟨d, hd, he⟩ := mem_renderNat b n hb16 _ h
      have := digitChar_ne_special d hd
      tauto

/-- Parsing the rendering of a number recovers its digits and value. -/
theorem parse_render_base (b : Nat) (hb : 2 ≤ b)
    (f : Char → Option Nat) (hf : ∀ d, d < b → f (digitChar d) = some d) (w : Nat) :
    ∃ ds, parseDigits f (renderNat b w) = some ds ∧ ofDigitsBE b ds = w := by
  by_cases h0 : w = 0
  · subst h0
    refine ⟨[0], ?_, by simp [ofDigitsBE]⟩
    unfold renderNat
    rw [if_pos rfl]
    have h := hf 0 (by omega)
    simp [parseDigits, h]
  · refine ⟨(toDigitsLE b w).reverse, ?_, ofDigitsBE_toDigits b w hb⟩
    unfold renderNat
    rw [if_neg h0]
    exact parseDigits_map f digitChar _
      (fun d hd => hf d (toDigitsLE_lt b w d (List.mem_reverse.mp hd)))

/-- A decimal octet round-trips through its rendering. -/
theorem parseDecOctet_renderNat (w : Nat) (hw : w ≤ 255) :
    parseDecOctet (renderNat 10 w) = some w := by
  obtain ⟨ds, hp, hv⟩ := parse_render_base 10 (by omega) decDigitVal
    (fun d hd => decDigitVal_digitChar d (by omega)) w
  unfold parseDecOctet
  rw [if_neg, hp]
  · simp [hv, hw]
  · push_neg
    constructor
    · simpa [List.length_eq_zero] using renderNat_ne_nil 10 w (by omega)
    · exact renderNat_length_le 10 3 w (by omega) (by omega) (by omega)

/-- A hex group round-trips through its rendering. -/
theorem parseHexGroup_renderNat (w : Nat) (hw : w < 65536) :
    parseHexGroup (renderNat 16 w) = some w := by
  obtain ⟨ds, hp, hv⟩ := parse_render_base 16 (by omega) hexDigitVal
    (fun d hd => hexDigitVal_digitChar d (by omega)) w
  unfold parseHexGroup
  rw [if_neg, hp]
  · simp [hv]
  push_neg
  constructor
  · simpa [List.length_eq_zero] using renderNat_ne_nil 16 w (by omega)
  · exact renderNat_length_le 16 4 w (by omega) (by omega) (by omega)

/-- Splitting a separator-free field leaves it whole. -/
theorem splitOnChar_sepFree (c : Char) :
    ∀ p : List Char, c ∉ p → splitOnChar c p = [p] := by
  intro p
  induction p with
  | nil => intro _; rfl
  | cons x xs ih =>
    intro h
    have hx : ¬ x = c := fun e => h (by simp [e])
    rw [splitOnChar, if_neg hx, ih (fun hm => h (by simp [hm]))]

/-- Splitting past the first separator peels off the first field. -/
theorem splitOnChar_append (c : Char) (t : List Char) :
    ∀ p : List Char, c ∉ p → splitOnChar c (p ++ c :: t) = p :: splitOnChar c t := by
  intro p
  induction p with
  | nil => simp [splitOnChar]
  | cons x xs ih =>
    intro h
    have hx : ¬ x = c := fun e => h (by simp [e])
    rw [List.cons_append, splitOnChar, if_neg hx, ih (fun hm => h (by simp [hm]))]

/-- Splitting undoes joining when no field contains the separator. -/
theorem splitOnChar_intercalateChar (c : Char) :
    ∀ ps : List (List Char), ps ≠ [] → (∀ p ∈ ps, c ∉ p) →
      splitOnChar c (intercalateChar c ps) = ps := by
  intro ps
  induction ps with
  | nil => intro h _; exact absurd rfl h
  | cons p ps ih =>
    intro _ hfree
    cases ps with
    | nil =>
      show splitOnChar c (intercalateChar c [p]) = [p]
      rw [intercalateChar]
      exact splitOnChar_sepFree c p (hfree p (by simp))
    | cons q qs =>
      have hI : intercalateChar c (p :: q :: qs) = p ++ c :: intercalateChar c (q :: qs) :=
        rfl
      rw [hI, splitOnChar_append c _ p (hfree p (by simp)),
        ih (by simp) (fun r hr => hfree r (by simp [hr]))]

/-- Membership in a join: the separator or a character of some field. -/
theorem mem_intercalateChar (c : Char) (x : Char) :
    ∀ ps : List (List Char), x ∈ intercalateChar c ps →
      x = c ∨ ∃ p ∈ ps, x ∈ p := by
  intro ps
  induction ps with
  | nil => intro h; simp [intercalateChar] at h
  | cons p ps ih =>
    cases ps with
    | nil =>
      intro h
      rw [show intercalateChar c [p] = p from rfl] at h
      exact Or.inr ⟨p, by simp, h⟩
    | cons q qs =>
      intro h
      rw [show intercalateChar c (p :: q :: qs) = p ++ c :: intercalateChar c (q :: qs)
        from rfl] at h
      rcases List.mem_append.mp h with h | h
      · exact Or.inr ⟨p, by simp, h⟩
      · rcases List.mem_cons.mp h with h | h
        · exact Or.inl h
        · rcases ih h with h | ⟨r, hr, hx⟩
          · exact Or.inl h
          · exact Or.inr ⟨r, by simp [hr], hx⟩

/-- A decoded decimal digit is at most 9. -/
theorem decDigitVal_le (c : Char) (d : Nat) (h : decDigitVal c = some d) : d ≤ 9 := by
  unfold decDigitVal at h
  split_ifs at h with h1
  injection h with h2
  omega

/-- A decoded hex digit is below 16. -/
theorem hexDigitVal_lt (c : Char) (d : Nat) (h : hexDigitVal c = some d) : d < 16 := by
  unfold hexDigitVal at h
  split_ifs at h with h1 h2 h3 <;> (injection h with h4; omega)

/-- Big-endian folding of digits below the base stays below
`A * b ^ length` when the accumulator starts below `A`. -/
theorem foldBE_lt (b : Nat) :
    ∀ ds : List Nat, ∀ acc A : Nat, acc < A → (∀ d ∈ ds, d < b) →
      ds.foldl (fun a d => a * b + d) acc < A * b ^ ds.length := by
  intro ds
  induction ds with
  | nil =>
    intro acc A h _
    simpa using h
  | cons d ds ih =>
    intro acc A h hd
    simp only [List.foldl_cons, List.length_cons]
    have hdb : d < b := hd d (by simp)
    have hstep : acc * b + d < A * b := by
      have h2 : (acc + 1) * b ≤ A * b := Nat.mul_le_mul_right b h
      calc acc * b + d < acc * b + b := by omega
        _ = (acc + 1) * b := by ring
        _ ≤ A * b := h2
    calc ds.foldl (fun a d => a * b + d) (acc * b + d) < (A * b) * b ^ ds.length :=
        ih (acc * b + d) (A * b) hstep (fun x hx => hd x (by simp [hx]))
      _ = A * b ^ (ds.length + 1) := by
        rw [Nat.pow_succ]
        ring

/-- A big-endian digit list below the base evaluates below `b ^ length`. -/
theorem ofDigitsBE_lt (b : Nat) (hb : 1 ≤ b) (ds : List Nat)
    (hd : ∀ d ∈ ds, d < b) : ofDigitsBE b ds < b ^ ds.length := by
  have h := foldBE_lt b ds 0 1 (by omega) hd
  simpa [ofDigitsBE] using h

/-- A parsed hex group is a 16-bit value. -/
theorem parseHexGroup_bound (g : List Char) (w : Nat)
    (h : parseHexGroup g = some w) : w < 65536 := by
  unfold parseHexGroup at h
  split_ifs at h with h1
  cases hp : parseDigits hexDigitVal g with
  | none =>
    simp [hp] at h
  | some ds =>
    simp only [hp, Option.some.injEq] at h
    obtain ⟨hlt, hlen⟩ := parseDigits_sound hexDigitVal (fun d => d < 16)
      (fun c d hc => hexDigitVal_lt c d hc) g ds hp
    push_neg at h1
    have hle : ds.length ≤ 4 := by omega
    have hpow : (16 : Nat) ^ ds.length ≤ 65536 := by
      calc (16 : Nat) ^ ds.length ≤ 16 ^ 4 := Nat.pow_le_pow_right (by omega) hle
        _ = 65536 := by norm_num
    have hof := ofDigitsBE_lt 16 (by omega) ds hlt
    exact h ▸ Nat.lt_of_lt_of_le hof hpow

/-- A parsed decimal octet is at most 255. -/
theorem parseDecOctet_le (g : List Char) (w : Nat)
    (h : parseDecOctet g = some w) : w ≤ 255 := by
  unfold parseDecOctet at h
  split_ifs at h with h1
  cases hp : parseDigits decDigitVal g with
  | none =>
    simp [hp] at h
  | some ds =>
    simp only [hp] at h
    split_ifs at h with h2
    injection h with h3
    omega

/-- Round trip for one IPv4 value through the modelled codec. -/
theorem inet_pton4_ntop4 (v : Nat) (hv : v < 4294967296) :
    inet_pton4 (ntop4chars v) = some v := by
  have h10 : (10 : Nat) ≤ 16 := by omega
  have hfree : ∀ p ∈ [renderNat 10 (v / 16777216 % 256), renderNat 10 (v / 65536 % 256),
      renderNat 10 (v / 256 % 256), renderNat 10 (v % 256)], '.' ∉ p := by
    intro p hp
    simp only [List.mem_cons, List.not_mem_nil, or_false] at hp
    rcases hp with rfl | rfl | rfl | rfl <;> exact (renderNat_no_special 10 _ h10).2.1
  have hsplit := splitOnChar_intercalateChar '.'
    [renderNat 10 (v / 16777216 % 256), renderNat 10 (v / 65536 % 256),
      renderNat 10 (v / 256 % 256), renderNat 10 (v % 256)] (by simp) hfree
  have q0 := parseDecOctet_renderNat (v / 16777216 % 256) (by omega)
  have q1 := parseDecOctet_renderNat (v / 65536 % 256) (by omega)
  have q2 := parseDecOctet_renderNat (v / 256 % 256) (by omega)
  have q3 := parseDecOctet_renderNat (v % 256) (by omega)
  unfold ntop4chars
  simp only [inet_pton4, hsplit, q0, q1, q2, q3, Option.some.injEq]
  unfold mkIPv4
  omega

/-- Parsing the joined rendering of eight 16-bit groups yields their bytes. -/
theorem inet_pton6_intercalate (w0 w1 w2 w3 w4 w5 w6 w7 : Nat)
    (hw : w0 < 65536 ∧ w1 < 65536 ∧ w2 < 65536 ∧ w3 < 65536 ∧ w4 < 65536 ∧
      w5 < 65536 ∧ w6 < 65536 ∧ w7 < 65536) :
    inet_pton6 (intercalateChar ':' [renderNat 16 w0, renderNat 16 w1,
        renderNat 16 w2, renderNat 16 w3, renderNat 16 w4, renderNat 16 w5,
        renderNat 16 w6, renderNat 16 w7]) =
      some (wordBytes w0 ++ wordBytes w1 ++ wordBytes w2 ++ wordBytes w3 ++
        wordBytes w4 ++ wordBytes w5 ++ wordBytes w6 ++ wordBytes w7) := by
  obtain ⟨hw0, hw1, hw2, hw3, hw4, hw5, hw6, hw7⟩ := hw
  have hfree : ∀ p ∈ [renderNat 16 w0, renderNat 16 w1, renderNat 16 w2,
      renderNat 16 w3, renderNat 16 w4, renderNat 16 w5, renderNat 16 w6,
      renderNat 16 w7], ':' ∉ p := by
    intro p hp
    simp only [List.mem_cons, List.not_mem_nil, or_false] at hp
    rcases hp with rfl | rfl | rfl | rfl | rfl | rfl | rfl | rfl <;>
      exact (renderNat_no_special 16 _ (by omega)).1
  have hsplit := splitOnChar_intercalateChar ':' [renderNat 16 w0, renderNat 16 w1,
    renderNat 16 w2, renderNat 16 w3, renderNat 16 w4, renderNat 16 w5,
    renderNat 16 w6, renderNat 16 w7] (by simp) hfree
  simp only [inet_pton6, hsplit, parseHexGroup_renderNat w0 hw0,
    parseHexGroup_renderNat w1 hw1, parseHexGroup_renderNat w2 hw2,
    parseHexGroup_renderNat w3 hw3, parseHexGroup_renderNat w4 hw4,
    parseHexGroup_renderNat w5 hw5, parseHexGroup_renderNat w6 hw6,
    parseHexGroup_renderNat w7 hw7]

/-- Round trip for one IPv6 address (given as its 16 octets) through
the modelled codec. -/
theorem inet_pton6_ntop6 (b0 b1 b2 b3 b4 b5 b6 b7 b8 b9 b10 b11 b12 b13 b14 b15 : Nat)
    (hb : b0 < 256 ∧ b1 < 256 ∧ b2 < 256 ∧ b3 < 256 ∧ b4 < 256 ∧ b5 < 256 ∧
      b6 < 256 ∧ b7 < 256 ∧ b8 < 256 ∧ b9 < 256 ∧ b10 < 256 ∧ b11 < 256 ∧
      b12 < 256 ∧ b13 < 256 ∧ b14 < 256 ∧ b15 < 256) :
    inet_pton6 (ntop6chars [b0, b1, b2, b3, b4, b5, b6, b7, b8, b9, b10, b11,
        b12, b13, b14, b15]) =
      some [b0, b1, b2, b3, b4, b5, b6, b7, b8, b9, b10, b11, b12, b13, b14, b15] := by
  obtain ⟨h0, h1, h2, h3, h4, h5, h6, h7, h8, h9, h10, h11, h12, h13, h14, h15⟩ := hb
  have e0 : w16 [b0, b1, b2, b3, b4, b5, b6, b7, b8, b9, b10, b11, b12, b13, b14, b15] 0 =
      b0 * 256 + b1 := rfl
  have e1 : w16 [b0, b1, b2, b3, b4, b5, b6, b7, b8, b9, b10, b11, b12, b13, b14, b15] 1 =
      b2 * 256 + b3 := rfl
  have e2 : w16 [b0, b1, b2, b3, b4, b5, b6, b7, b8, b9, b10, b11, b12, b13, b14, b15] 2 =
      b4 * 256 + b5 := rfl
  have e3 : w16 [b0, b1, b2, b3, b4, b5, b6, b7, b8, b9, b10, b11, b12, b13, b14, b15] 3 =
      b6 * 256 + b7 := rfl
  have e4 : w16 [b0, b1, b2, b3, b4, b5, b6, b7, b8, b9, b10, b11, b12, b13, b14, b15] 4 =
      b8 * 256 + b9 := rfl
  have e5 : w16 [b0, b1, b2, b3, b4, b5, b6, b7, b8, b9, b10, b11, b12, b13, b14, b15] 5 =
      b10 * 256 + b11 := rfl
  have e6 : w16 [b0, b1, b2, b3, b4, b5, b6, b7, b8, b9, b10, b11, b12, b13, b14, b15] 6 =
      b12 * 256 + b13 := rfl
  have e7 : w16 [b0, b1, b2, b3, b4, b5, b6, b7, b8, b9, b10, b11, b12, b13, b14, b15] 7 =
      b14 * 256 + b15 := rfl
  unfold ntop6chars
  rw [e0, e1, e2, e3, e4, e5, e6, e7,
    inet_pton6_intercalate (b0 * 256 + b1) (b2 * 256 + b3) (b4 * 256 + b5)
      (b6 * 256 + b7) (b8 * 256 + b9) (b10 * 256 + b11) (b12 * 256 + b13)
      (b14 * 256 + b15) (by omega)]
  simp only [wordBytes, List.cons_append, List.nil_append, Option.some.injEq,
    List.cons.injEq, and_true]
  omega

/-- Indices written by `writeChars` lie in `[start, start + length)`. -/
theorem mem_writeChars_writes (l s : List Char) (start : Nat) :
    ∀ i ∈ (writeChars l start s).2, start ≤ i ∧ i < start + s.length := by
  intro i hi
  unfold writeChars at hi
  simpa using List.mem_range'_1.mp hi

/-- The buffer contents produced by `writeChars`. -/
theorem writeChars_fst (l s : List Char) (start : Nat) :
    (writeChars l start s).1 = l.take start ++ s ++ l.drop (start + s.length) := rfl

/-- The element sitting right after a known prefix. -/
theorem getD_append_length (xs ys : List Char) (y d : Char) :
    (xs ++ y :: ys).getD xs.length d = y := by
  induction xs with
  | nil => rfl
  | cons x xs ih => simpa using ih

/-- `takeWhile` runs through a satisfying prefix and stops on the witness. -/
theorem takeWhile_append_stop (p : Char → Bool) :
    ∀ xs : List Char, (∀ x ∈ xs, p x = true) →
      ∀ (y : Char) (ys : List Char), p y = false →
        (xs ++ y :: ys).takeWhile p = xs := by
  intro xs
  induction xs with
  | nil =>
    intro _ y ys hy
    rw [List.nil_append, List.takeWhile_cons_of_neg (by simp [hy])]
  | cons x xs ih =>
    intro hall y ys hy
    have hx : p x = true := hall x (by simp)
    simp [List.takeWhile_cons_of_pos hx,
      ih (fun z hz => hall z (by simp [hz])) y ys hy]

/-- The full colon-hex rendering laid out as nested appends. -/
theorem ntop6chars_eq (bs : List Nat) :
    ntop6chars bs =
      renderNat 16 (w16 bs 0) ++ ':' :: (renderNat 16 (w16 bs 1) ++ ':' ::
        (renderNat 16 (w16 bs 2) ++ ':' :: (renderNat 16 (w16 bs 3) ++ ':' ::
          (renderNat 16 (w16 bs 4) ++ ':' :: (renderNat 16 (w16 bs 5) ++ ':' ::
            (renderNat 16 (w16 bs 6) ++ ':' :: renderNat 16 (w16 bs 7))))))) := rfl

/-- The colon-hex form is at least 15 characters long. -/
theorem ntop6chars_length_ge (bs : List Nat) : 15 ≤ (ntop6chars bs).length := by
  rw [ntop6chars_eq]
  have h0 := List.length_pos.mpr (renderNat_ne_nil 16 (w16 bs 0) (by omega))
  have h1 := List.length_pos.mpr (renderNat_ne_nil 16 (w16 bs 1) (by omega))
  have h2 := List.length_pos.mpr (renderNat_ne_nil 16 (w16 bs 2) (by omega))
  have h3 := List.length_pos.mpr (renderNat_ne_nil 16 (w16 bs 3) (by omega))
  have h4 := List.length_pos.mpr (renderNat_ne_nil 16 (w16 bs 4) (by omega))
  have h5 := List.length_pos.mpr (renderNat_ne_nil 16 (w16 bs 5) (by omega))
  have h6 := List.length_pos.mpr (renderNat_ne_nil 16 (w16 bs 6) (by omega))
  have h7 := List.length_pos.mpr (renderNat_ne_nil 16 (w16 bs 7) (by omega))
  simp only [List.length_append, List.length_cons]
  omega

/-- NUL never occurs in the IPv4 text. -/
theorem ntop4chars_no_nul (v : Nat) : nulChar ∉ ntop4chars v := by
  intro h
  rcases mem_intercalateChar '.' nulChar _ h with h | ⟨p, hp, hx⟩
  · exact absurd h (by decide)
  · simp only [List.mem_cons, List.not_mem_nil, or_false] at hp
    rcases hp with rfl | rfl | rfl | rfl <;>
      exact (renderNat_no_special 10 _ (by omega)).2.2 hx

/-- The colon never occurs in the IPv4 text (so `SockAddr_pton` will
parse it as IPv4). -/
theorem ntop4chars_no_colon (v : Nat) : ':' ∉ ntop4chars v := by
  intro h
  rcases mem_intercalateChar '.' ':' _ h with h | ⟨p, hp, hx⟩
  · exact absurd h (by decide)
  · simp only [List.mem_cons, List.not_mem_nil, or_false] at hp
    rcases hp with rfl | rfl | rfl | rfl <;>
      exact (renderNat_no_special 10 _ (by omega)).1 hx

/-- NUL never occurs in the IPv6 text. -/
theorem ntop6chars_no_nul (bs : List Nat) : nulChar ∉ ntop6chars bs := by
  intro h
  rcases mem_intercalateChar ':' nulChar _ h with h | ⟨p, hp, hx⟩
  · exact absurd h (by decide)
  · simp only [List.mem_cons, List.not_mem_nil, or_false] at hp
    rcases hp with rfl | rfl | rfl | rfl | rfl | rfl | rfl | rfl <;>
      exact (renderNat_no_special 16 _ (by omega)).2.2 hx

/-- The IPv6 text always contains a colon (so `SockAddr_pton` will
parse it as IPv6). -/
theorem ntop6chars_has_colon (bs : List Nat) :
    (ntop6chars bs).any (fun ch => ch = ':') = true := by
  rw [List.any_eq_true]
  refine ⟨':', ?_, by simp⟩
  rw [ntop6chars_eq]
  simp

/-- When the text fits, the platform formatter writes text and
terminator at the start of the buffer. -/
theorem inet_ntop_write_fit (s buf : List Char) (cnt : Nat)
    (hfit : s.length + 1 ≤ cnt) :
    inet_ntop_write s buf cnt =
      (s ++ nulChar :: buf.drop (s.length + 1), List.range' 0 (s.length + 1)) := by
  unfold inet_ntop_write
  rw [if_pos hfit]
  unfold writeChars
  simp [List.append_assoc]

/-- C7 (amended): provided the declared capacity admits the formatted
text plus its terminator (one byte for an unrecognized family) and does
not exceed the allocation, `SockAddr_ntop` writes only below the
capacity, leaves the buffer NUL-terminated within the capacity, and
stores the empty string for an unrecognized family. -/
theorem claim7_ntop_amended :
    ∀ (sa : SockAddr) (buf : List Char) (cnt : Nat) (v4conv : Bool),
      ntopNeeded sa ≤ cnt → cnt ≤ buf.length →
      ntopWritesWithin sa buf cnt v4conv ∧
      bufNullTerminated (SockAddr_ntop sa buf cnt v4conv).1 cnt ∧
      (sa.sa_family ≠ AF_INET → sa.sa_family ≠ AF_INET6 →
        readCStr (SockAddr_ntop sa buf cnt v4conv).1 = []) := by
  intro sa buf cnt v4conv hneed hbuf
  unfold ntopWritesWithin bufNullTerminated
  by_cases h4 : sa.sa_family = AF_INET
  · have hfit : (ntop4chars sa.sin_addr).length + 1 ≤ cnt := by
      unfold ntopNeeded at hneed
      rwa [if_pos h4] at hneed
    have he : SockAddr_ntop sa buf cnt v4conv =
        (ntop4chars sa.sin_addr ++ nulChar ::
            buf.drop ((ntop4chars sa.sin_addr).length + 1),
          List.range' 0 ((ntop4chars sa.sin_addr).length + 1)) := by
      unfold SockAddr_ntop
      rw [if_pos h4]
      exact inet_ntop_write_fit _ _ _ hfit
    rw [he]
    refine ⟨?_, ⟨(ntop4chars sa.sin_addr).length, by omega, ?_⟩, ?_⟩
    · intro i hi
      have := List.mem_range'_1.mp hi
      omega
    · exact getD_append_length _ _ _ _
    · intro hne _
      exact absurd h4 hne
  · by_cases h6 : sa.sa_family = AF_INET6
    · have hfit : (ntop6chars sa.sin6_addr).length + 1 ≤ cnt := by
        unfold ntopNeeded at hneed
        rwa [if_neg h4, if_pos h6] at hneed
      have hlen7 : 7 ≤ (ntop6chars sa.sin6_addr).length := by
        have := ntop6chars_length_ge sa.sin6_addr
        omega
      by_cases hc : (v4conv && in6IsV4Mapped sa.sin6_addr) = true
      · have hdrop : (ntop6chars sa.sin6_addr ++ nulChar ::
              buf.drop ((ntop6chars sa.sin6_addr).length + 1)).drop 7 =
            (ntop6chars sa.sin6_addr).drop 7 ++ nulChar ::
              buf.drop ((ntop6chars sa.sin6_addr).length + 1) :=
          List.drop_append_of_le_length hlen7
        have hread : readCStr ((ntop6chars sa.sin6_addr ++ nulChar ::
              buf.drop ((ntop6chars sa.sin6_addr).length + 1)).drop 7) =
            (ntop6chars sa.sin6_addr).drop 7 := by
          rw [hdrop]
          unfold readCStr
          refine takeWhile_append_stop _ _ ?_ _ _ (by simp)
          intro x hx
          have hxs : x ∈ ntop6chars sa.sin6_addr := List.mem_of_mem_drop hx
          have hne : x ≠ nulChar := fun e => ntop6chars_no_nul sa.sin6_addr (e ▸ hxs)
          simp [hne]
        have he : SockAddr_ntop sa buf cnt v4conv =
            (((ntop6chars sa.sin6_addr).drop 7 ++ [nulChar]) ++
                ((ntop6chars sa.sin6_addr ++ nulChar ::
                  buf.drop ((ntop6chars sa.sin6_addr).length + 1)).drop
                    ((ntop6chars sa.sin6_addr).length - 7 + 1)),
              List.range' 0 ((ntop6chars sa.sin6_addr).length + 1) ++
                List.range' 0 ((ntop6chars sa.sin6_addr).length - 7 + 1)) := by
          unfold SockAddr_ntop
          rw [if_neg h4, if_pos h6]
          simp only [inet_ntop_write_fit _ _ _ hfit, hc, if_true, strcpyFrom, hread,
            writeChars, List.take_zero, List.nil_append, List.length_append,
            List.length_drop, List.length_cons, List.length_nil, Nat.zero_add]
        rw [he]
        refine ⟨?_, ⟨(ntop6chars sa.sin6_addr).length - 7, by omega, ?_⟩, ?_⟩
        · intro i hi
          rcases List.mem_append.mp hi with hi | hi <;>
            · have := List.mem_range'_1.mp hi
              omega
        · rw [List.append_assoc, List.singleton_append]
          have hl : ((ntop6chars sa.sin6_addr).drop 7).length =
              (ntop6chars sa.sin6_addr).length - 7 := List.length_drop 7 _
          rw [← hl]
          exact getD_append_length _ _ _ _
        · intro _ hne
          exact absurd h6 hne
      · have he : SockAddr_ntop sa buf cnt v4conv =
            (ntop6chars sa.sin6_addr ++ nulChar ::
                buf.drop ((ntop6chars sa.sin6_addr).length + 1),
              List.range' 0 ((ntop6chars sa.sin6_addr).length + 1)) := by
          unfold SockAddr_ntop
          rw [if_neg h4, if_pos h6]
          simp only [inet_ntop_write_fit _ _ _ hfit, Bool.not_eq_true] at hc ⊢
          simp [hc]
        rw [he]
        refine ⟨?_, ⟨(ntop6chars sa.sin6_addr).length, by omega, ?_⟩, ?_⟩
        · intro i hi
          have := List.mem_range'_1.mp hi
          omega
        · exact getD_append_length _ _ _ _
        · intro _ hne
          exact absurd h6 hne
    · have hone : 1 ≤ cnt := by
        unfold ntopNeeded at hneed
        rwa [if_neg h4, if_neg h6] at hneed
      have he : SockAddr_ntop sa buf cnt v4conv =
          (nulChar :: buf.drop 1, [0]) := by
        unfold SockAddr_ntop
        rw [if_neg h4, if_neg h6]
        unfold writeChars
        simp
      rw [he]
      refine ⟨?_, ⟨0, by omega, rfl⟩, ?_⟩
      · intro i hi
        simp only [List.mem_singleton] at hi
        omega
      · intro _ _
        unfold readCStr
        rw [List.takeWhile_cons_of_neg (by simp)]

/-- C7 counterexample: with capacity 1 the formatted IPv4 text does not
fit, the (ignored) formatter failure writes nothing, and the buffer is
left without a NUL below the capacity — the claim's "always leaves the
destination null-terminated" is false for small capacities. -/
theorem claim7_ntop_counterexample :
    ¬ bufNullTerminated (SockAddr_ntop (v4Sock 0) ['x'] 1 false).1 1 := by
  intro h
  obtain ⟨i, hi, hnul⟩ := h
  have hz : i = 0 := by omega
  subst hz
  have he : (SockAddr_ntop (v4Sock 0) ['x'] 1 false).1 = ['x'] := by decide
  rw [he] at hnul
  exact absurd hnul (by decide)

/-- Witness for the amended C7: an IPv4 address in an ample buffer, and
the empty-string fallback for a Unix-domain tag. -/
theorem claim7_ntop_amended_witness :
    (ntopWritesWithin (v4Sock 0) (List.replicate 16 'x') 9 false ∧
      bufNullTerminated (SockAddr_ntop (v4Sock 0) (List.replicate 16 'x') 9 false).1 9) ∧
    readCStr (SockAddr_ntop
        { sa_family := AF_UNIX, sin_addr := 0, sin6_addr := [], port := 0 }
        (List.replicate 4 'x') 2 false).1 = [] := by
  have h1 := claim7_ntop_amended (v4Sock 0) (List.replicate 16 'x') 9 false
    (by decide) (by decide)
  have h2 := claim7_ntop_amended
    { sa_family := AF_UNIX, sin_addr := 0, sin6_addr := [], port := 0 }
    (List.replicate 4 'x') 2 false (by decide) (by decide)
  exact ⟨⟨h1.1, h1.2.1⟩, h2.2.2 (by decide) (by decide)⟩

/-- A successfully parsed IPv4 text denotes a 32-bit value. -/
theorem inet_pton4_lt (s : List Char) (v : Nat) (h : inet_pton4 s = some v) :
    v < 4294967296 := by
  unfold inet_pton4 at h
  split at h
  · split at h
    · rename_i a b c d ha hb hc hd
      have h1 := parseDecOctet_le _ _ ha
      have h2 := parseDecOctet_le _ _ hb
      have h3 := parseDecOctet_le _ _ hc
      have h4 := parseDecOctet_le _ _ hd
      injection h with h
      subst h
      unfold mkIPv4
      omega
    · exact absurd h (by simp)
  · exact absurd h (by simp)

/-- A successfully parsed IPv6 text denotes 16 octet values. -/
theorem inet_pton6_sound (s : List Char) (bs : List Nat)
    (h : inet_pton6 s = some bs) : bs.length = 16 ∧ ∀ x ∈ bs, x < 256 := by
  unfold inet_pton6 at h
  split at h
  · split at h
    · rename_i w0 w1 w2 w3 w4 w5 w6 w7 e0 e1 e2 e3 e4 e5 e6 e7
      have B0 := parseHexGroup_bound _ _ e0
      have B1 := parseHexGroup_bound _ _ e1
      have B2 := parseHexGroup_bound _ _ e2
      have B3 := parseHexGroup_bound _ _ e3
      have B4 := parseHexGroup_bound _ _ e4
      have B5 := parseHexGroup_bound _ _ e5
      have B6 := parseHexGroup_bound _ _ e6
      have B7 := parseHexGroup_bound _ _ e7
      injection h with h
      subst h
      constructor
      · simp [wordBytes]
      · intro x hx
        have hx2 : x = w0 / 256 ∨ x = w0 % 256 ∨ x = w1 / 256 ∨ x = w1 % 256 ∨
            x = w2 / 256 ∨ x = w2 % 256 ∨ x = w3 / 256 ∨ x = w3 % 256 ∨
            x = w4 / 256 ∨ x = w4 % 256 ∨ x = w5 / 256 ∨ x = w5 % 256 ∨
            x = w6 / 256 ∨ x = w6 % 256 ∨ x = w7 / 256 ∨ x = w7 % 256 := by
          simpa [wordBytes, List.mem_append, or_assoc] using hx
        rcases hx2 with rfl | rfl | rfl | rfl | rfl | rfl | rfl | rfl | rfl | rfl |
          rfl | rfl | rfl | rfl | rfl | rfl <;> omega
    · exact absurd h (by simp)
  · exact absurd h (by simp)

/-- The IPv4 text contains no colon, so the family scan picks IPv4. -/
theorem ntop4chars_any_colon (v : Nat) :
    (ntop4chars v).any (fun ch => ch = ':') = false := by
  rw [List.any_eq_false]
  intro x hx
  simp only [decide_eq_true_eq]
  intro e
  exact ntop4chars_no_colon v (e ▸ hx)

/-- C8: parsing the text produced by formatting with unmapping disabled
reproduces the binary address exactly, for every IPv4 value and every
IPv6 octet string; the family is re-inferred correctly from the text
itself, and the pre-existing contents of the output variant do not
interfere. -/
theorem claim8_roundtrip :
    (∀ v : Nat, v < 4294967296 → ∀ sa0 : SockAddr,
      SockAddr_pton sa0 (ntop4chars v) =
        (1, { sa0 with sa_family := AF_INET, sin_addr := v })) ∧
    (∀ b0 b1 b2 b3 b4 b5 b6 b7 b8 b9 b10 b11 b12 b13 b14 b15 : Nat,
      (b0 < 256 ∧ b1 < 256 ∧ b2 < 256 ∧ b3 < 256 ∧ b4 < 256 ∧ b5 < 256 ∧
        b6 < 256 ∧ b7 < 256 ∧ b8 < 256 ∧ b9 < 256 ∧ b10 < 256 ∧ b11 < 256 ∧
        b12 < 256 ∧ b13 < 256 ∧ b14 < 256 ∧ b15 < 256) →
      ∀ sa0 : SockAddr,
        SockAddr_pton sa0 (ntop6chars [b0, b1, b2, b3, b4, b5, b6, b7, b8, b9,
            b10, b11, b12, b13, b14, b15]) =
          (1, { sa0 with
                  sa_family := AF_INET6,
                  sin6_addr := [b0, b1, b2, b3, b4, b5, b6, b7, b8, b9,
                    b10, b11, b12, b13, b14, b15] })) := by
  constructor
  · intro v hv sa0
    simp [SockAddr_pton, ntop4chars_any_colon v, inet_pton4_ntop4 v hv]
  · intro b0 b1 b2 b3 b4 b5 b6 b7 b8 b9 b10 b11 b12 b13 b14 b15 hb sa0
    simp [SockAddr_pton,
      ntop6chars_has_colon [b0, b1, b2, b3, b4, b5, b6, b7, b8, b9, b10, b11,
        b12, b13, b14, b15],
      inet_pton6_ntop6 b0 b1 b2 b3 b4 b5 b6 b7 b8 b9 b10 b11 b12 b13 b14 b15 hb,
      AF_INET, AF_INET6]

/-- Witness for C8 at `192.0.2.1` and its IPv4-mapped IPv6 counterpart. -/
theorem claim8_roundtrip_witness :
    SockAddr_pton sockAddrZero (ntop4chars (mkIPv4 192 0 2 1)) =
      (1, { sockAddrZero with sa_family := AF_INET, sin_addr := mkIPv4 192 0 2 1 }) ∧
    SockAddr_pton sockAddrZero
        (ntop6chars [0, 0, 0, 0, 0, 0, 0, 0, 0, 0, 255, 255, 192, 0, 2, 1]) =
      (1, { sockAddrZero with
              sa_family := AF_INET6,
              sin6_addr := [0, 0, 0, 0, 0, 0, 0, 0, 0, 0, 255, 255, 192, 0, 2, 1] }) :=
  ⟨claim8_roundtrip.1 (mkIPv4 192 0 2 1) (by decide) sockAddrZero,
    claim8_roundtrip.2 0 0 0 0 0 0 0 0 0 0 255 255 192 0 2 1 (by decide) sockAddrZero⟩

/-- C9: `SockAddr_pton` infers the family from the presence of a colon
alone; the text is then handed to the parser of that family, and the
call reports failure (0, the invalid-format result) exactly when that
parser rejects the text. -/
theorem claim9_pton_family :
    ∀ (sa : SockAddr) (src : List Char),
      (src.any (fun ch => ch = ':') = true →
        (SockAddr_pton sa src).2.sa_family = AF_INET6 ∧
        ((SockAddr_pton sa src).1 = 1 ↔ ∃ bs, inet_pton6 src = some bs) ∧
        ((SockAddr_pton sa src).1 = 0 ↔ inet_pton6 src = none)) ∧
      (src.any (fun ch => ch = ':') = false →
        (SockAddr_pton sa src).2.sa_family = AF_INET ∧
        ((SockAddr_pton sa src).1 = 1 ↔ ∃ w, inet_pton4 src = some w) ∧
        ((SockAddr_pton sa src).1 = 0 ↔ inet_pton4 src = none)) := by
  intro sa src
  constructor
  · intro hc
    cases hp : inet_pton6 src with
    | some bs => simp [SockAddr_pton, hc, hp, AF_INET, AF_INET6]
    | none => simp [SockAddr_pton, hc, hp, AF_INET, AF_INET6]
  · intro hc
    cases hp : inet_pton4 src with
    | some w => simp [SockAddr_pton, hc, hp, AF_INET, AF_INET6]
    | none => simp [SockAddr_pton, hc, hp, AF_INET, AF_INET6]

/-- Witness for C9: a dotted quad is read as IPv4 and parses; a lone
colon selects IPv6 and is rejected as invalid. -/
theorem claim9_pton_family_witness :
    ((SockAddr_pton sockAddrZero "10.0.0.0".toList).2.sa_family = AF_INET ∧
      (SockAddr_pton sockAddrZero "10.0.0.0".toList).1 = 1) ∧
    ((SockAddr_pton sockAddrZero ":".toList).2.sa_family = AF_INET6 ∧
      (SockAddr_pton sockAddrZero ":".toList).1 = 0) := by
  have h4 := (claim9_pton_family sockAddrZero ("10.0.0.0".toList)).2 (by decide)
  have h6 := (claim9_pton_family sockAddrZero (":".toList)).1 (by decide)
  exact ⟨⟨h4.1, h4.2.1.2 ⟨mkIPv4 10 0 0 0, by decide⟩⟩,
    ⟨h6.1, h6.2.2.2 (by decide)⟩⟩

/-- C10 counterexample: parsing the invalid text `":"` fails (returns 0)
yet the family tag has still been switched to IPv6 while the payload is
untouched — the tag was set without a validly populated payload of that
family (here the stale IPv6 payload is not even 16 octets long). -/
theorem claim10_invariant_counterexample :
    (SockAddr_pton (v4Sock (mkIPv4 10 0 0 0)) ":".toList).1 = 0 ∧
    (SockAddr_pton (v4Sock (mkIPv4 10 0 0 0)) ":".toList).2.sa_family = AF_INET6 ∧
    (SockAddr_pton (v4Sock (mkIPv4 10 0 0 0)) ":".toList).2.sin6_addr =
      (v4Sock (mkIPv4 10 0 0 0)).sin6_addr ∧
    ¬ validPayload (SockAddr_pton (v4Sock (mkIPv4 10 0 0 0)) ":".toList).2 := by
  refine ⟨by decide, by decide, by decide, ?_⟩
  intro h
  have h2 := h.2 (by decide)
  have h3 : ((SockAddr_pton (v4Sock (mkIPv4 10 0 0 0)) ":".toList).2.sin6_addr).length = 0 := by
    decide
  omega

/-- C10 (amended): a successful `SockAddr_pton` leaves the family tag
matching a validly populated payload of that family; a failed call
nevertheless sets the tag to the inferred family while both payloads
keep their previous contents, so the tag/payload pairing is not
preserved on failure paths. -/
theorem claim10_invariant_amended :
    ∀ (sa : SockAddr) (src : List Char),
      ((SockAddr_pton sa src).1 = 1 → validPayload (SockAddr_pton sa src).2) ∧
      ((SockAddr_pton sa src).1 ≠ 1 →
        (SockAddr_pton sa src).2.sa_family =
          (if src.any (fun ch => ch = ':') = true then AF_INET6 else AF_INET) ∧
        (SockAddr_pton sa src).2.sin_addr = sa.sin_addr ∧
        (SockAddr_pton sa src).2.sin6_addr = sa.sin6_addr) := by
  intro sa src
  cases hany : src.any fun ch => ch = ':' with
  | true =>
    cases hp : inet_pton6 src with
    | some bs =>
      have hs := inet_pton6_sound src bs hp
      have he : SockAddr_pton sa src =
          (1, { sa with sa_family := AF_INET6, sin6_addr := bs }) := by
        simp [SockAddr_pton, hany, hp, AF_INET, AF_INET6]
      rw [he]
      constructor
      · intro _
        unfold validPayload
        constructor <;> intro hf
        · exact absurd hf (by simp [AF_INET, AF_INET6])
        · simpa using hs
      · intro h1
        exact absurd rfl h1
    | none =>
      have he : SockAddr_pton sa src = (0, { sa with sa_family := AF_INET6 }) := by
        simp [SockAddr_pton, hany, hp, AF_INET, AF_INET6]
      rw [he]
      constructor
      · intro h1
        exact absurd h1 (by simp)
      · intro _
        exact ⟨by simp [hany], rfl, rfl⟩
  | false =>
    cases hp : inet_pton4 src with
    | some v =>
      have hv := inet_pton4_lt src v hp
      have he : SockAddr_pton sa src =
          (1, { sa with sa_family := AF_INET, sin_addr := v }) := by
        simp [SockAddr_pton, hany, hp, AF_INET, AF_INET6]
      rw [he]
      constructor
      · intro _
        unfold validPayload
        constructor <;> intro hf
        · simpa using hv
        · exact absurd hf (by simp [AF_INET, AF_INET6])
      · intro h1
        exact absurd rfl h1
    | none =>
      have he : SockAddr_pton sa src = (0, { sa with sa_family := AF_INET }) := by
        simp [SockAddr_pton, hany, hp, AF_INET, AF_INET6]
      rw [he]
      constructor
      · intro h1
        exact absurd h1 (by simp)
      · intro _
        exact ⟨by simp [hany], rfl, rfl⟩

/-- Witness for the amended C10 at a successful parse of `10.1.2.3`. -/
theorem claim10_invariant_amended_witness :
    validPayload (SockAddr_pton sockAddrZero "10.1.2.3".toList).2 :=
  (claim10_invariant_amended sockAddrZero ("10.1.2.3".toList)).1 (by decide)
